import Mathlib

/-!
# A verification development for `spi` (src/spi.cpp)

This file gives a shallow embedding, in Lean 4, of the single-file C++
arithmetic interpreter `src/spi.cpp` (lexer, recursive-descent parser,
and tree-walking interpreter), and proves properties of that embedding.

Modelling conventions, each justified against the source:

* C++ `int` is modelled as `Int`.  `std::stoi` checks the `int` range and
  throws `std::out_of_range` when the literal exceeds it; that check is
  modelled explicitly (`INT_MAX = 2147483647`).  Signed-integer overflow in
  `+`, `-`, `*`, `/` and division by zero are undefined behaviour in C++;
  the embedding marks those outcomes with dedicated error values
  (`Err.signedOverflowUB`, `Err.divisionByZeroUB`) because the real program
  throws nothing there — it has no defined behaviour at all.
* Every C++ `throw std::runtime_error(msg)` becomes
  `Except.error (Err.runtimeError msg)` with the exact message string of
  the source.
* The `Lexer` class stores `text`, `position` and a cached `currentChar`.
  In every reachable state the cached character equals
  `text[position]` when `position < text.length()` and `'\0'` otherwise
  (the constructor establishes this — `std::string::operator[]` at index
  `size()` yields `'\0'` — and `advance` maintains it, writing `0` once
  `position` passes the end).  The embedding therefore stores only `text`
  and `position` and computes the current character.
* The C++ `while` loops of the lexer and the mutually recursive
  parser functions are modelled with explicit fuel.  The lexer loops get
  fuel `text.length - position`, which is proved sufficient; the parser
  functions are built as a fuel-indexed family `parseFns`, and the fuel
  used by `parse` is proved sufficient (`Err.fuelExhausted` is never
  returned).  All definitions are plain structural recursions, so they
  evaluate inside the kernel.
-/

/-- `enum token_type_t` of the source. -/
inductive TokenType where
  | integerToken
  | plusToken
  | minusToken
  | multiplyToken
  | divideToken
  | lParenToken
  | rParenToken
  | eofToken
deriving DecidableEq

/-- `class Token`: a kind and an integer payload (defaulted to 0 by the
C++ constructor for the non-integer kinds). -/
structure Token where
  type : TokenType
  value : Int
deriving DecidableEq

/-- The failure outcomes of the program.

`runtimeError msg` models `throw std::runtime_error(msg)`.
`outOfRange` and `invalidArgument` model the exceptions of `std::stoi`
(`std::out_of_range` when the literal exceeds the `int` range,
`std::invalid_argument` when no digit is present — the latter is
unreachable from `get_next_token`, which enters `integer()` only on a
digit).  `divisionByZeroUB` and `signedOverflowUB` mark outcomes where
the C++ program has undefined behaviour (`/` with right operand 0, and
an `int` arithmetic result outside the `int` range) — the real program
throws nothing there.  `fuelExhausted` is an artifact of the fuel-based
modelling of loops and recursion; it is proved unreachable. -/
inductive Err where
  | runtimeError (msg : String)
  | outOfRange
  | invalidArgument
  | divisionByZeroUB
  | signedOverflowUB
  | fuelExhausted
deriving DecidableEq

/-- C `isspace` in the default locale: space, `\t`, `\n`, `\v`, `\f`, `\r`. -/
def isSpaceChar (c : Char) : Bool :=
  c = ' ' || c = '\t' || c = '\n' || c = '\x0b' || c = '\x0c' || c = '\r'

/-- C `isdigit`: the ten decimal digits. -/
def isDigitChar (c : Char) : Bool :=
  '0' ≤ c && c ≤ '9'

/-- The state of `class Lexer`: the text and the scan offset
(`std::size_t position`, hence a natural number — it cannot be negative).
The cached `currentChar` field is recovered by the function
`currentChar` below. -/
structure LexerState where
  text : List Char
  position : Nat
deriving DecidableEq

/-- The character the C++ object caches in its `currentChar` field:
`text[position]` while in range, and the `'\0'` sentinel once the offset
has passed the end (see the modelling notes at the top of the file). -/
def currentChar (s : LexerState) : Char :=
  s.text.getD s.position '\x00'

/-- `Lexer::advance`: step the offset; the cached character becomes
`text[position]` again or the sentinel `0` past the end. -/
def advance (s : LexerState) : LexerState :=
  { s with position := s.position + 1 }

/-- The loop body of `Lexer::skip_whitespace`, with fuel for the `while`;
`skip_whitespace` below supplies fuel that is proved sufficient
(`skipWsAux_fuel_done`). -/
def skipWsAux : Nat → LexerState → LexerState
  | 0, s => s
  | n + 1, s =>
    if currentChar s ≠ '\x00' ∧ isSpaceChar (currentChar s) = true then
      skipWsAux n (advance s)
    else
      s

/-- `Lexer::skip_whitespace`: advance while the current character is
whitespace and the end has not been reached. -/
def skip_whitespace (s : LexerState) : LexerState :=
  skipWsAux (s.text.length - s.position) s

/-- The loop of `Lexer::integer`, with fuel: consume the contiguous run of
digits, returning the consumed characters and the state after them.  The
source records `initialPosition` and a `length` and then takes
`text.substr(initialPosition, length)`; since each iteration consumes
exactly the character at the current offset, that substring is exactly
the list of consumed characters collected here. -/
def integerLoopAux : Nat → LexerState → List Char × LexerState
  | 0, s => ([], s)
  | n + 1, s =>
    if currentChar s ≠ '\x00' ∧ isDigitChar (currentChar s) = true then
      let r := integerLoopAux n (advance s)
      (currentChar s :: r.1, r.2)
    else
      ([], s)

/-- The digit run scanned by `Lexer::integer`, with fuel that is proved
sufficient (`integerLoopAux_fuel_done`). -/
def integerLoop (s : LexerState) : List Char × LexerState :=
  integerLoopAux (s.text.length - s.position) s

/-- The base-10 value of a digit string, as accumulated by `std::stoi`. -/
def digitsVal (cs : List Char) : Nat :=
  cs.foldl (fun a c => 10 * a + (c.toNat - '0'.toNat)) 0

/-- `INT_MAX` for the 32-bit `int` used by the program. -/
def intMax : Nat := 2147483647

/-- `std::stoi(str, 0, 10)` at its single call site, where `str` is the
scanned digit run: `std::invalid_argument` when there is no digit,
`std::out_of_range` when the value exceeds the `int` range (the run is
unsigned, so only the upper bound can be exceeded), and otherwise the
numeric value. -/
def stoi (cs : List Char) : Except Err Int :=
  if cs.isEmpty then .error .invalidArgument
  else if digitsVal cs > intMax then .error .outOfRange
  else .ok (digitsVal cs : Int)

/-- `Lexer::integer`: scan the maximal digit run and convert it with
`std::stoi`; the state advances past the run. -/
def integer (s : LexerState) : Except Err (Int × LexerState) :=
  let r := integerLoop s
  match stoi r.1 with
  | .ok v => .ok (v, r.2)
  | .error e => .error e

/-- `Lexer::get_next_token`.  The C++ `while (currentChar != 0)` loop
only repeats through the `isspace` branch's `continue`, and
`skip_whitespace` leaves a non-whitespace character (or the end
sentinel), so the loop is equivalent to one whitespace skip followed by
a single dispatch: end sentinel → EOF token; digit → `integer()`;
one of the six operator characters → advance and emit it;
anything else → `throw std::runtime_error("Unknown token")`. -/
def get_next_token (s : LexerState) : Except Err (Token × LexerState) :=
  let s1 := skip_whitespace s
  if currentChar s1 = '\x00' then
    .ok (⟨.eofToken, 0⟩, s1)
  else if isDigitChar (currentChar s1) then
    match integer s1 with
    | .ok (v, s2) => .ok (⟨.integerToken, v⟩, s2)
    | .error e => .error e
  else if currentChar s1 = '+' then .ok (⟨.plusToken, 0⟩, advance s1)
  else if currentChar s1 = '-' then .ok (⟨.minusToken, 0⟩, advance s1)
  else if currentChar s1 = '*' then .ok (⟨.multiplyToken, 0⟩, advance s1)
  else if currentChar s1 = '/' then .ok (⟨.divideToken, 0⟩, advance s1)
  else if currentChar s1 = '(' then .ok (⟨.lParenToken, 0⟩, advance s1)
  else if currentChar s1 = ')' then .ok (⟨.rParenToken, 0⟩, advance s1)
  else .error (.runtimeError "Unknown token")

/-- `Lexer::Lexer`: position 0; the cached character is `text[0]`
(which for the empty string is already the `'\0'` sentinel). -/
def lexerInit (t : List Char) : LexerState :=
  ⟨t, 0⟩

/-- The expression tree.  The C++ base class `AST` stores a token and a
vector of children, but its constructor is `protected`: the only
concrete nodes are `Num` (a token, no children) and `BinaryOp` (an
operator token and exactly the two children `left`, `right`), so those
two shapes are the constructors of the embedded type. -/
inductive AST where
  | num (token : Token)
  | binOp (token : Token) (left right : AST)
deriving DecidableEq

/-- The token stored at a node (`AST::getToken`). -/
def AST.token : AST → Token
  | .num t => t
  | .binOp t _ _ => t

/-- The number of children of a node (`AST::getNumberChildren`):
0 for `Num`, 2 for `BinaryOp`. -/
def AST.numberChildren : AST → Nat
  | .num _ => 0
  | .binOp _ _ _ => 2

/-- The state of `class Parser`: its lexer and the current token. -/
structure ParserState where
  lexer : LexerState
  currentToken : Token
deriving DecidableEq

/-- `Parser::eat`: if the current token has the expected kind, replace it
with the lexer's next token (propagating any lexer failure); otherwise
`throw std::runtime_error("Syntax error")`. -/
def eat (t : TokenType) (p : ParserState) : Except Err ParserState :=
  if p.currentToken.type = t then
    match get_next_token p.lexer with
    | .ok (tok, l') => .ok ⟨l', tok⟩
    | .error e => .error e
  else
    .error (.runtimeError "Syntax error")

/-- The mutually recursive parsing functions `factor`, `term`, `expr`
(and the bodies of the two `while` loops inside `term` and `expr`),
packaged at one fuel level.  `parseFns` below ties the recursion through
fuel. -/
structure ParseFns where
  factor : ParserState → Except Err (AST × ParserState)
  termLoop : AST → ParserState → Except Err (AST × ParserState)
  term : ParserState → Except Err (AST × ParserState)
  exprLoop : AST → ParserState → Except Err (AST × ParserState)
  expr : ParserState → Except Err (AST × ParserState)

/-- `Parser::factor`: an Integer token becomes a `Num` leaf; an LParen
opens a parenthesized `expr` that must be closed by an RParen; any other
token is `throw std::runtime_error("Expected integer or left
parenthesis, got neither")`.  The recursion into `expr` goes through the
previous fuel level. -/
def factorStep (prev : ParseFns) (p : ParserState) : Except Err (AST × ParserState) :=
  match p.currentToken.type with
  | .integerToken =>
    let node := AST.num p.currentToken
    match eat .integerToken p with
    | .ok p' => .ok (node, p')
    | .error e => .error e
  | .lParenToken =>
    match eat .lParenToken p with
    | .ok p1 =>
      match prev.expr p1 with
      | .ok (node, p2) =>
        match eat .rParenToken p2 with
        | .ok p3 => .ok (node, p3)
        | .error e => .error e
      | .error e => .error e
    | .error e => .error e
  | _ => .error (.runtimeError "Expected integer or left parenthesis, got neither")

/-- The `while` loop of `Parser::term`: while the current token is `*` or
`/`, eat the operator, parse another `factor`, and wrap the node built so
far as the left child of a new `BinaryOp` (this is the left-associative
build-up of the source). -/
def termLoopStep (prev : ParseFns) (a : AST) (p : ParserState) : Except Err (AST × ParserState) :=
  if p.currentToken.type = .multiplyToken ∨ p.currentToken.type = .divideToken then
    match eat p.currentToken.type p with
    | .ok p1 =>
      match prev.factor p1 with
      | .ok (b, p2) => prev.termLoop (AST.binOp p.currentToken a b) p2
      | .error e => .error e
    | .error e => .error e
  else
    .ok (a, p)

/-- `Parser::term`: a `factor` followed by the `(*|/) factor` loop. -/
def termStep (prev : ParseFns) (p : ParserState) : Except Err (AST × ParserState) :=
  match factorStep prev p with
  | .ok (a, p1) => termLoopStep prev a p1
  | .error e => .error e

/-- The `while` loop of `Parser::expr`: while the current token is `+` or
`-`, eat the operator, parse another `term`, and wrap leftwards. -/
def exprLoopStep (prev : ParseFns) (a : AST) (p : ParserState) : Except Err (AST × ParserState) :=
  if p.currentToken.type = .plusToken ∨ p.currentToken.type = .minusToken then
    match eat p.currentToken.type p with
    | .ok p1 =>
      match prev.term p1 with
      | .ok (b, p2) => prev.exprLoop (AST.binOp p.currentToken a b) p2
      | .error e => .error e
    | .error e => .error e
  else
    .ok (a, p)

/-- `Parser::expr`: a `term` followed by the `(+|-) term` loop. -/
def exprStep (prev : ParseFns) (p : ParserState) : Except Err (AST × ParserState) :=
  match termStep prev p with
  | .ok (a, p1) => exprLoopStep prev a p1
  | .error e => .error e

/-- The fuel-indexed family of parsing functions.  A fuel unit is spent
exactly where the parser makes progress through the token stream
(entering a parenthesized `expr` from `factor`, and each iteration of
the two operator loops), so fuel `remaining tokens + 1` is enough; this
is proved below (`parseFns_good`) and `parse` supplies it. -/
def parseFns : Nat → ParseFns
  | 0 =>
    ⟨fun _ => .error .fuelExhausted, fun _ _ => .error .fuelExhausted,
     fun _ => .error .fuelExhausted, fun _ _ => .error .fuelExhausted,
     fun _ => .error .fuelExhausted⟩
  | n + 1 =>
    let prev := parseFns n
    ⟨factorStep prev, termLoopStep prev, termStep prev, exprLoopStep prev, exprStep prev⟩

/-- `Parser::Parser`: prime `currentToken` with the lexer's first token
(a lexer failure there propagates out of the constructor). -/
def parserInit (l : LexerState) : Except Err ParserState :=
  match get_next_token l with
  | .ok (tok, l') => .ok ⟨l', tok⟩
  | .error e => .error e

/-- The fuel `parse` hands to the parsing functions: more than the
largest possible value of the `parseMeasure` below. -/
def parseFuel (p : ParserState) : Nat :=
  p.lexer.text.length + 2

/-- `Parser::parse`: construct the parser on the lexer, run `expr`, and
reject any input with a token left over
(`throw std::runtime_error("Unexpected characters at end")`).
The C++ `delete lexer` has no observable counterpart. -/
def parse (l : LexerState) : Except Err AST :=
  match parserInit l with
  | .ok p =>
    match (parseFns (parseFuel p)).expr p with
    | .ok (tree, p') =>
      if p'.currentToken.type = .eofToken then .ok tree
      else .error (.runtimeError "Unexpected characters at end")
    | .error e => .error e
  | .error e => .error e

/-- `intMax` and `INT_MIN` as `Int` bounds for arithmetic results. -/
def inIntRange (v : Int) : Bool :=
  -2147483648 ≤ v && v ≤ 2147483647

/-- The operator dispatch inside `Interpreter::visit_BinaryOp`.  `+`,
`-`, `*` are `int` arithmetic, and `/` is C++ `int` division (truncation
toward zero).  A zero right operand of `/`, or a result outside the
`int` range, is undefined behaviour in C++ — the source performs the
operation unguarded — and is marked by the corresponding `Err` value.
The `default` branch is `throw std::runtime_error("Unknown node type")`. -/
def binOpApply (t : TokenType) (v1 v2 : Int) : Except Err Int :=
  match t with
  | .plusToken => if inIntRange (v1 + v2) then .ok (v1 + v2) else .error .signedOverflowUB
  | .minusToken => if inIntRange (v1 - v2) then .ok (v1 - v2) else .error .signedOverflowUB
  | .multiplyToken => if inIntRange (v1 * v2) then .ok (v1 * v2) else .error .signedOverflowUB
  | .divideToken =>
    if v2 = 0 then .error .divisionByZeroUB
    else if inIntRange (v1.tdiv v2) then .ok (v1.tdiv v2) else .error .signedOverflowUB
  | _ => .error (.runtimeError "Unknown node type")

/-- `Interpreter::visit`, with `visit_Num` and `visit_BinaryOp` inlined
at the dispatch (the dispatch is on the TOKEN kind, not on the node
shape): an operator token sends the node to `visit_BinaryOp`, which
first checks `getNumberChildren() == 2` — so a childless `Num` carrying
an operator token fails with `"Wrong number of children"` — and then
evaluates left, then right, and applies the operator; an Integer token
sends the node to `visit_Num`, which returns the token's payload; any
other token kind is `throw std::runtime_error("Unknown node type")`. -/
def visit : AST → Except Err Int
  | .num t =>
    match t.type with
    | .plusToken | .minusToken | .multiplyToken | .divideToken =>
      .error (.runtimeError "Wrong number of children")
    | .integerToken => .ok t.value
    | _ => .error (.runtimeError "Unknown node type")
  | .binOp t l r =>
    match t.type with
    | .plusToken | .minusToken | .multiplyToken | .divideToken =>
      match visit l with
      | .ok v1 =>
        match visit r with
        | .ok v2 => binOpApply t.type v1 v2
        | .error e => .error e
      | .error e => .error e
    | .integerToken => .ok t.value
    | _ => .error (.runtimeError "Unknown node type")

/-- `Interpreter::interpret`. -/
def interpret (tree : AST) : Except Err Int :=
  visit tree

/-- The single operation the core exposes (the body of the interactive
loop in `main`, minus the I/O):
`Parser(new Lexer(input)).parse()` followed by
`Interpreter().interpret(*ast_tree)`. -/
def evaluate_expression (text : String) : Except Err Int :=
  match parse (lexerInit text.data) with
  | .ok tree => interpret tree
  | .error e => .error e

/-! ## Lexer lemmas -/

/-- A non-sentinel current character means the offset is in range. -/
theorem currentChar_ne_zero {s : LexerState} (h : currentChar s ≠ '\x00') :
    s.position < s.text.length := by
  by_contra hlt
  push_neg at hlt
  exact h (List.getD_eq_default _ _ hlt)

theorem skipWsAux_text : ∀ (n : Nat) (s : LexerState), (skipWsAux n s).text = s.text := by
  intro n
  induction n with
  | zero => intro s; rfl
  | succ n ih =>
    intro s
    unfold skipWsAux
    split
    · exact ih (advance s)
    · rfl

theorem skipWsAux_pos_ge : ∀ (n : Nat) (s : LexerState),
    s.position ≤ (skipWsAux n s).position := by
  intro n
  induction n with
  | zero => intro s; exact Nat.le_refl _
  | succ n ih =>
    intro s
    unfold skipWsAux
    split
    · exact Nat.le_trans (Nat.le_succ _) (ih (advance s))
    · exact Nat.le_refl _

theorem skipWsAux_pos_le : ∀ (n : Nat) (s : LexerState),
    s.position ≤ s.text.length → (skipWsAux n s).position ≤ s.text.length := by
  intro n
  induction n with
  | zero => intro s h; exact h
  | succ n ih =>
    intro s h
    unfold skipWsAux
    split
    · rename_i hg
      exact ih (advance s) (currentChar_ne_zero hg.1)
    · exact h

/-- With fuel at least `length - position`, the whitespace loop runs to
completion: its guard fails at the resulting state. -/
theorem skipWsAux_fuel_done : ∀ (n : Nat) (s : LexerState),
    s.text.length - s.position ≤ n →
    currentChar (skipWsAux n s) = '\x00' ∨
      isSpaceChar (currentChar (skipWsAux n s)) = false := by
  intro n
  induction n with
  | zero =>
    intro s h
    left
    have : s.text.length ≤ s.position := by omega
    exact List.getD_eq_default _ _ this
  | succ n ih =>
    intro s h
    unfold skipWsAux
    split
    · rename_i hg
      have hlt := currentChar_ne_zero hg.1
      exact ih (advance s) (by simp [advance]; omega)
    · rename_i hg
      rcases Decidable.em (currentChar s = '\x00') with h0 | h0
      · exact Or.inl h0
      · right
        by_contra hsp
        exact hg ⟨h0, by revert hsp; cases isSpaceChar (currentChar s) <;> simp⟩

/-- If the guard fails at entry, the whitespace loop is the identity. -/
theorem skipWsAux_id (n : Nat) (s : LexerState)
    (h : currentChar s = '\x00' ∨ isSpaceChar (currentChar s) = false) :
    skipWsAux n s = s := by
  cases n with
  | zero => rfl
  | succ n =>
    unfold skipWsAux
    split
    · rename_i hg
      rcases h with h | h
      · exact absurd h hg.1
      · rw [hg.2] at h; cases h
    · rfl

theorem skip_whitespace_text (s : LexerState) : (skip_whitespace s).text = s.text :=
  skipWsAux_text _ s

theorem skip_whitespace_pos_ge (s : LexerState) :
    s.position ≤ (skip_whitespace s).position :=
  skipWsAux_pos_ge _ s

theorem skip_whitespace_pos_le (s : LexerState)
    (h : s.position ≤ s.text.length) : (skip_whitespace s).position ≤ s.text.length :=
  skipWsAux_pos_le _ s h

theorem skip_whitespace_done (s : LexerState) :
    currentChar (skip_whitespace s) = '\x00' ∨
      isSpaceChar (currentChar (skip_whitespace s)) = false :=
  skipWsAux_fuel_done _ s (Nat.le_refl _)

theorem skip_whitespace_id (s : LexerState)
    (h : currentChar s = '\x00' ∨ isSpaceChar (currentChar s) = false) :
    skip_whitespace s = s :=
  skipWsAux_id _ s h

theorem integerLoopAux_text : ∀ (n : Nat) (s : LexerState),
    (integerLoopAux n s).2.text = s.text := by
  intro n
  induction n with
  | zero => intro s; rfl
  | succ n ih =>
    intro s
    unfold integerLoopAux
    split
    · exact ih (advance s)
    · rfl

theorem integerLoopAux_pos_ge : ∀ (n : Nat) (s : LexerState),
    s.position ≤ (integerLoopAux n s).2.position := by
  intro n
  induction n with
  | zero => intro s; exact Nat.le_refl _
  | succ n ih =>
    intro s
    unfold integerLoopAux
    split
    · exact Nat.le_trans (Nat.le_succ _) (ih (advance s))
    · exact Nat.le_refl _

theorem integerLoopAux_pos_le : ∀ (n : Nat) (s : LexerState),
    s.position ≤ s.text.length → (integerLoopAux n s).2.position ≤ s.text.length := by
  intro n
  induction n with
  | zero => intro s h; exact h
  | succ n ih =>
    intro s h
    unfold integerLoopAux
    split
    · rename_i hg
      exact ih (advance s) (currentChar_ne_zero hg.1)
    · exact h

/-- When the loop guard holds at entry and there is fuel, the digit loop
consumes at least one character. -/
theorem integerLoopAux_pos_gt (n : Nat) (s : LexerState)
    (h0 : currentChar s ≠ '\x00') (hd : isDigitChar (currentChar s) = true) :
    s.position < (integerLoopAux (n + 1) s).2.position := by
  unfold integerLoopAux
  rw [if_pos ⟨h0, hd⟩]
  exact Nat.lt_of_lt_of_le (Nat.lt_succ_self _) (integerLoopAux_pos_ge n (advance s))

/-- When the loop guard holds at entry and there is fuel, the collected
run is nonempty. -/
theorem integerLoopAux_ne_nil (n : Nat) (s : LexerState)
    (h0 : currentChar s ≠ '\x00') (hd : isDigitChar (currentChar s) = true) :
    (integerLoopAux (n + 1) s).1 ≠ [] := by
  unfold integerLoopAux
  rw [if_pos ⟨h0, hd⟩]
  exact List.cons_ne_nil _ _

/-- Facts about `integer` when it succeeds, from a state whose current
character is a digit: the text is unchanged and the offset strictly
advances, staying within the text. -/
theorem integer_ok {s : LexerState} {v : Int} {s' : LexerState}
    (h0 : currentChar s ≠ '\x00') (hd : isDigitChar (currentChar s) = true)
    (h : integer s = .ok (v, s')) :
    s'.text = s.text ∧ s.position < s'.position ∧ s'.position ≤ s.text.length := by
  have hlt := currentChar_ne_zero h0
  have hfuel : s.text.length - s.position = (s.text.length - s.position - 1) + 1 := by omega
  simp only [integer, integerLoop] at h
  split at h
  · cases h
    refine ⟨integerLoopAux_text _ s, ?_, integerLoopAux_pos_le _ s (Nat.le_of_lt hlt)⟩
    rw [hfuel]
    exact integerLoopAux_pos_gt _ s h0 hd
  · cases h

/-- When `integer` fails from a digit state, the failure is
`std::out_of_range` (the run is nonempty, so `std::invalid_argument`
cannot occur). -/
theorem integer_err {s : LexerState} {e : Err}
    (h0 : currentChar s ≠ '\x00') (hd : isDigitChar (currentChar s) = true)
    (h : integer s = .error e) : e = .outOfRange := by
  have hlt := currentChar_ne_zero h0
  have hfuel : s.text.length - s.position = (s.text.length - s.position - 1) + 1 := by omega
  simp only [integer, integerLoop] at h
  split at h
  · cases h
  · rename_i e' hstoi
    cases h
    have hne : (integerLoopAux (s.text.length - s.position) s).1 ≠ [] := by
      rw [hfuel]
      exact integerLoopAux_ne_nil _ s h0 hd
    unfold stoi at hstoi
    rw [if_neg (by simpa [List.isEmpty_iff] using hne)] at hstoi
    split at hstoi
    · cases hstoi; rfl
    · cases hstoi

/-- What one successful `get_next_token` call does to the state: the
text is unchanged, the offset never moves backwards, it stays within
the text if it started there, and whenever the returned token is not
EndOfInput the offset strictly advances and lands within the text. -/
theorem get_next_token_ok {s : LexerState} {t : Token} {s' : LexerState}
    (h : get_next_token s = .ok (t, s')) :
    s'.text = s.text ∧ s.position ≤ s'.position ∧
    (s.position ≤ s.text.length → s'.position ≤ s.text.length) ∧
    (t.type ≠ .eofToken → s.position < s'.position ∧ s'.position ≤ s.text.length) := by
  have htext := skip_whitespace_text s
  have hge := skip_whitespace_pos_ge s
  simp only [get_next_token] at h
  split at h
  · cases h
    exact ⟨htext, hge, fun hp => skip_whitespace_pos_le s hp,
      fun hne => absurd rfl hne⟩
  · rename_i h0
    have hlt : (skip_whitespace s).position < s.text.length := by
      have := currentChar_ne_zero h0
      rwa [htext] at this
  
    split at h
    · rename_i hd
      split at h
      · rename_i v s2 hint
        cases h
        obtain ⟨h1, h2, h3⟩ := integer_ok h0 hd hint
        rw [htext] at h1 h3
        exact ⟨h1, by omega, fun _ => h3, fun _ => ⟨by omega, h3⟩⟩
      · cases h
    · -- the six single-character operator branches all advance by one
      have hstep : ∀ (τ : TokenType) (v : Int),
          (Except.ok ((⟨τ, v⟩ : Token), advance (skip_whitespace s)) :
            Except Err (Token × LexerState)) = Except.ok (t, s') → τ ≠ .eofToken →
          s'.text = s.text ∧ s.position ≤ s'.position ∧
          (s.position ≤ s.text.length → s'.position ≤ s.text.length) ∧
          (t.type ≠ .eofToken → s.position < s'.position ∧ s'.position ≤ s.text.length) := by
        intro τ v hh _
        cases hh
        refine ⟨htext, by simp [advance]; omega, fun _ => ?_, fun _ => ?_⟩
        · simp [advance]; omega
        · constructor
          · simp [advance]; omega
          · simp [advance]; omega
      split at h
      · exact hstep _ _ h (by intro hc; cases hc)
      · split at h
        · exact hstep _ _ h (by intro hc; cases hc)
        · split at h
          · exact hstep _ _ h (by intro hc; cases hc)
          · split at h
            · exact hstep _ _ h (by intro hc; cases hc)
            · split at h
              · exact hstep _ _ h (by intro hc; cases hc)
              · split at h
                · exact hstep _ _ h (by intro hc; cases hc)
                · cases h

/-- The only failures `get_next_token` can produce: the
`"Unknown token"` lexical failure, or `std::out_of_range` escaping from
`std::stoi` on an oversized integer literal. -/
theorem get_next_token_err {s : LexerState} {e : Err}
    (h : get_next_token s = .error e) :
    e = .runtimeError "Unknown token" ∨ e = .outOfRange := by
  simp only [get_next_token] at h
  split at h
  · cases h
  · rename_i h0
    split at h
    · rename_i hd
      split at h
      · cases h
      · rename_i e' hint
        cases h
        exact Or.inr (integer_err h0 hd hint)
    · split at h
      · cases h
      · split at h
        · cases h
        · split at h
          · cases h
          · split at h
            · cases h
            · split at h
              · cases h
              · split at h
                · cases h
                · cases h
                  exact Or.inl rfl

/-- `get_next_token` returns an EndOfInput token exactly from the
end-of-text branch, so the resulting state sits at the sentinel. -/
theorem get_next_token_eof {s : LexerState} {t : Token} {s' : LexerState}
    (h : get_next_token s = .ok (t, s')) (ht : t.type = .eofToken) :
    currentChar s' = '\x00' := by
  simp only [get_next_token] at h
  split at h
  · rename_i h0
    cases h
    exact h0
  · rename_i h0
    split at h
    · split at h
      · cases h
        cases ht
      · cases h
    · split at h
      · cases h; cases ht
      · split at h
        · cases h; cases ht
        · split at h
          · cases h; cases ht
          · split at h
            · cases h; cases ht
            · split at h
              · cases h; cases ht
              · split at h
                · cases h; cases ht
                · cases h

/-- Once the lexer state sits at the sentinel, `get_next_token` returns
the EndOfInput token and leaves the state untouched. -/
theorem get_next_token_at_end {s : LexerState} (h : currentChar s = '\x00') :
    get_next_token s = .ok (⟨.eofToken, 0⟩, s) := by
  have hid : skip_whitespace s = s := skip_whitespace_id s (Or.inl h)
  simp [get_next_token, hid, h]

/-! ## Parser lemmas -/

/-- The remaining-input measure of a parser state: unconsumed characters
of the lexer plus one for a pending non-EndOfInput token.  Eating any
non-EndOfInput token strictly decreases it (`eat_measure_lt`). -/
def parseMeasure (p : ParserState) : Nat :=
  (p.lexer.text.length - p.lexer.position) +
    (if p.currentToken.type = .eofToken then 0 else 1)

theorem eat_ok_type {τ : TokenType} {p p' : ParserState} (h : eat τ p = .ok p') :
    p.currentToken.type = τ := by
  unfold eat at h
  split at h
  · assumption
  · cases h

theorem eat_ok_lexer {τ : TokenType} {p p' : ParserState} (h : eat τ p = .ok p') :
    get_next_token p.lexer = .ok (p'.currentToken, p'.lexer) := by
  unfold eat at h
  split at h
  · split at h
    · rename_i tok l' hg
      cases h
      exact hg
    · cases h
  · cases h

theorem eat_err {τ : TokenType} {p : ParserState} {e : Err}
    (h : eat τ p = .error e) :
    e = .runtimeError "Syntax error" ∨ e = .runtimeError "Unknown token" ∨
      e = .outOfRange := by
  unfold eat at h
  split at h
  · split at h
    · cases h
    · rename_i e' hg
      cases h
      rcases get_next_token_err hg with h1 | h1
      · exact Or.inr (Or.inl h1)
      · exact Or.inr (Or.inr h1)
  · cases h
    exact Or.inl rfl

/-- Eating a non-EndOfInput token strictly shrinks the measure and keeps
the text. -/
theorem eat_measure_lt {τ : TokenType} {p p' : ParserState}
    (hτ : τ ≠ TokenType.eofToken) (h : eat τ p = .ok p') :
    parseMeasure p' < parseMeasure p ∧ p'.lexer.text = p.lexer.text := by
  have htype := eat_ok_type h
  obtain ⟨h1, h2, _h3, h4⟩ := get_next_token_ok (eat_ok_lexer h)
  refine ⟨?_, h1⟩
  unfold parseMeasure
  rw [htype, if_neg hτ, h1]
  rcases Decidable.em (p'.currentToken.type = .eofToken) with he | he
  · rw [if_pos he]
    omega
  · rw [if_neg he]
    obtain ⟨hlt, hle⟩ := h4 he
    omega

/-- The failures the parsing functions may produce: the lexer's two
failures plus the two parser `throw` sites reachable from `expr`
(`Parser::parse`'s own "Unexpected characters at end" is accounted for
separately in `parse_cases`). -/
def GoodErr (e : Err) : Prop :=
  e = .runtimeError "Unknown token" ∨ e = .runtimeError "Syntax error" ∨
    e = .runtimeError "Expected integer or left parenthesis, got neither" ∨
    e = .outOfRange

/-- Trees the parser can build: a `Num` always carries an Integer token,
a `BinaryOp` always carries one of the four operator tokens. -/
inductive WFAst : AST → Prop where
  | num (t : Token) : t.type = .integerToken → WFAst (.num t)
  | binOp (t : Token) (l r : AST) :
      t.type = .plusToken ∨ t.type = .minusToken ∨
        t.type = .multiplyToken ∨ t.type = .divideToken →
      WFAst l → WFAst r → WFAst (.binOp t l r)

/-- The contract of one parsing function at one state: failures are
classified by `GoodErr`, and successes return a well-formed tree without
growing the measure. -/
def FnGood (f : ParserState → Except Err (AST × ParserState)) (p : ParserState) : Prop :=
  (∀ e, f p = .error e → GoodErr e) ∧
  (∀ a p', f p = .ok (a, p') → WFAst a ∧ parseMeasure p' ≤ parseMeasure p)

/-- The fuel discipline of `parseFns` is sound: at any fuel level
strictly above the measure of the state, every parsing function
classifies its failures by `GoodErr` (in particular, fuel never runs
out) and returns well-formed trees without growing the measure. -/
theorem parseFns_good : ∀ (n : Nat) (p : ParserState), parseMeasure p < n →
    FnGood (parseFns n).factor p ∧
    (∀ a, WFAst a → FnGood ((parseFns n).termLoop a) p) ∧
    FnGood (parseFns n).term p ∧
    (∀ a, WFAst a → FnGood ((parseFns n).exprLoop a) p) ∧
    FnGood (parseFns n).expr p := by
  intro n
  induction n with
  | zero =>
    intro p hp
    exact absurd hp (Nat.not_lt_zero _)
  | succ n ih =>
    have Hfactor : ∀ p, parseMeasure p < n + 1 → FnGood (factorStep (parseFns n)) p := by
      intro p hp
      constructor
      · intro e he
        unfold factorStep at he
        split at he
        · split at he
          · cases he
          · rename_i e' heat
            cases he
            rcases eat_err heat with h | h | h <;> simp [GoodErr, h]
        · split at he
          · rename_i p1 heat
            have hm1 : parseMeasure p1 < parseMeasure p :=
              (eat_measure_lt (by decide) heat).1
            split at he
            · rename_i node p2 hexp
              split at he
              · cases he
              · rename_i e' heat2
                cases he
                rcases eat_err heat2 with h | h | h <;> simp [GoodErr, h]
            · rename_i e' hexp
              cases he
              exact ((ih p1 (by omega)).2.2.2.2).1 e hexp
          · rename_i e' heat
            cases he
            rcases eat_err heat with h | h | h <;> simp [GoodErr, h]
        · cases he
          simp [GoodErr]
      · intro a p' hok
        unfold factorStep at hok
        split at hok
        · rename_i htok
          split at hok
          · rename_i p1 heat
            cases hok
            have hm1 : parseMeasure p' < parseMeasure p :=
              (eat_measure_lt (by decide) heat).1
            exact ⟨WFAst.num _ htok, Nat.le_of_lt hm1⟩
          · cases hok
        · split at hok
          · rename_i p1 heat
            have hm1 : parseMeasure p1 < parseMeasure p :=
              (eat_measure_lt (by decide) heat).1
            split at hok
            · rename_i node p2 hexp
              obtain ⟨hwf, hm2⟩ := ((ih p1 (by omega)).2.2.2.2).2 node p2 hexp
              split at hok
              · rename_i p3 heat2
                cases hok
                have hm3 : parseMeasure p' < parseMeasure p2 :=
                  (eat_measure_lt (by decide) heat2).1
                exact ⟨hwf, by omega⟩
              · cases hok
            · cases hok
          · cases hok
        · cases hok
    have HtermLoop : ∀ p, parseMeasure p < n + 1 → ∀ a, WFAst a →
        FnGood (termLoopStep (parseFns n) a) p := by
      intro p hp a ha
      constructor
      · intro e he
        unfold termLoopStep at he
        split at he
        · rename_i hop
          have hτ : p.currentToken.type ≠ TokenType.eofToken := by
            rcases hop with h | h <;> rw [h] <;> decide
          split at he
          · rename_i p1 heat
            have hm1 : parseMeasure p1 < parseMeasure p := (eat_measure_lt hτ heat).1
            split at he
            · rename_i b p2 hfac
              obtain ⟨hwfb, hm2⟩ := ((ih p1 (by omega)).1).2 b p2 hfac
              have hwfnew : WFAst (AST.binOp p.currentToken a b) := by
                refine WFAst.binOp _ _ _ ?_ ha hwfb
                rcases hop with h | h
                · exact Or.inr (Or.inr (Or.inl h))
                · exact Or.inr (Or.inr (Or.inr h))
              exact ((ih p2 (by omega)).2.1 _ hwfnew).1 e he
            · rename_i e' hfac
              cases he
              exact ((ih p1 (by omega)).1).1 e hfac
          · rename_i e' heat
            cases he
            rcases eat_err heat with h | h | h <;> simp [GoodErr, h]
        · cases he
      · intro a' p' hok
        unfold termLoopStep at hok
        split at hok
        · rename_i hop
          have hτ : p.currentToken.type ≠ TokenType.eofToken := by
            rcases hop with h | h <;> rw [h] <;> decide
          split at hok
          · rename_i p1 heat
            have hm1 : parseMeasure p1 < parseMeasure p := (eat_measure_lt hτ heat).1
            split at hok
            · rename_i b p2 hfac
              obtain ⟨hwfb, hm2⟩ := ((ih p1 (by omega)).1).2 b p2 hfac
              have hwfnew : WFAst (AST.binOp p.currentToken a b) := by
                refine WFAst.binOp _ _ _ ?_ ha hwfb
                rcases hop with h | h
                · exact Or.inr (Or.inr (Or.inl h))
                · exact Or.inr (Or.inr (Or.inr h))
              obtain ⟨hwf', hm3⟩ := ((ih p2 (by omega)).2.1 _ hwfnew).2 a' p' hok
              exact ⟨hwf', by omega⟩
            · cases hok
          · cases hok
        · cases hok
          exact ⟨ha, Nat.le_refl _⟩
    have Hterm : ∀ p, parseMeasure p < n + 1 → FnGood (termStep (parseFns n)) p := by
      intro p hp
      constructor
      · intro e he
        unfold termStep at he
        split at he
        · rename_i a p1 hfac
          obtain ⟨hwf, hm1⟩ := (Hfactor p hp).2 a p1 hfac
          exact (HtermLoop p1 (by omega) a hwf).1 e he
        · rename_i e' hfac
          cases he
          exact (Hfactor p hp).1 e hfac
      · intro a' p' hok
        unfold termStep at hok
        split at hok
        · rename_i a p1 hfac
          obtain ⟨hwf, hm1⟩ := (Hfactor p hp).2 a p1 hfac
          obtain ⟨hwf', hm2⟩ := (HtermLoop p1 (by omega) a hwf).2 a' p' hok
          exact ⟨hwf', by omega⟩
        · cases hok
    have HexprLoop : ∀ p, parseMeasure p < n + 1 → ∀ a, WFAst a →
        FnGood (exprLoopStep (parseFns n) a) p := by
      intro p hp a ha
      constructor
      · intro e he
        unfold exprLoopStep at he
        split at he
        · rename_i hop
          have hτ : p.currentToken.type ≠ TokenType.eofToken := by
            rcases hop with h | h <;> rw [h] <;> decide
          split at he
          · rename_i p1 heat
            have hm1 : parseMeasure p1 < parseMeasure p := (eat_measure_lt hτ heat).1
            split at he
            · rename_i b p2 hterm
              obtain ⟨hwfb, hm2⟩ := ((ih p1 (by omega)).2.2.1).2 b p2 hterm
              have hwfnew : WFAst (AST.binOp p.currentToken a b) := by
                refine WFAst.binOp _ _ _ ?_ ha hwfb
                rcases hop with h | h
                · exact Or.inl h
                · exact Or.inr (Or.inl h)
              exact ((ih p2 (by omega)).2.2.2.1 _ hwfnew).1 e he
            · rename_i e' hterm
              cases he
              exact ((ih p1 (by omega)).2.2.1).1 e hterm
          · rename_i e' heat
            cases he
            rcases eat_err heat with h | h | h <;> simp [GoodErr, h]
        · cases he
      · intro a' p' hok
        unfold exprLoopStep at hok
        split at hok
        · rename_i hop
          have hτ : p.currentToken.type ≠ TokenType.eofToken := by
            rcases hop with h | h <;> rw [h] <;> decide
          split at hok
          · rename_i p1 heat
            have hm1 : parseMeasure p1 < parseMeasure p := (eat_measure_lt hτ heat).1
            split at hok
            · rename_i b p2 hterm
              obtain ⟨hwfb, hm2⟩ := ((ih p1 (by omega)).2.2.1).2 b p2 hterm
              have hwfnew : WFAst (AST.binOp p.currentToken a b) := by
                refine WFAst.binOp _ _ _ ?_ ha hwfb
                rcases hop with h | h
                · exact Or.inl h
                · exact Or.inr (Or.inl h)
              obtain ⟨hwf', hm3⟩ := ((ih p2 (by omega)).2.2.2.1 _ hwfnew).2 a' p' hok
              exact ⟨hwf', by omega⟩
            · cases hok
          · cases hok
        · cases hok
          exact ⟨ha, Nat.le_refl _⟩
    have Hexpr : ∀ p, parseMeasure p < n + 1 → FnGood (exprStep (parseFns n)) p := by
      intro p hp
      constructor
      · intro e he
        unfold exprStep at he
        split at he
        · rename_i a p1 hterm
          obtain ⟨hwf, hm1⟩ := (Hterm p hp).2 a p1 hterm
          exact (HexprLoop p1 (by omega) a hwf).1 e he
        · rename_i e' hterm
          cases he
          exact (Hterm p hp).1 e hterm
      · intro a' p' hok
        unfold exprStep at hok
        split at hok
        · rename_i a p1 hterm
          obtain ⟨hwf, hm1⟩ := (Hterm p hp).2 a p1 hterm
          obtain ⟨hwf', hm2⟩ := (HexprLoop p1 (by omega) a hwf).2 a' p' hok
          exact ⟨hwf', by omega⟩
        · cases hok
    intro p hp
    exact ⟨Hfactor p hp, fun a ha => HtermLoop p hp a ha, Hterm p hp,
      fun a ha => HexprLoop p hp a ha, Hexpr p hp⟩

/-- What `parse` can do: a successful parse returns a well-formed tree;
a failed parse fails with one of the lexer/parser failures or with the
trailing-garbage rejection of `Parser::parse`. -/
theorem parse_cases (l : LexerState) :
    (∀ t, parse l = .ok t → WFAst t) ∧
    (∀ e, parse l = .error e →
      GoodErr e ∨ e = .runtimeError "Unexpected characters at end") := by
  have hfuel : ∀ p : ParserState, parseMeasure p < parseFuel p := by
    intro p
    unfold parseMeasure parseFuel
    split <;> omega
  constructor
  · intro t h
    unfold parse at h
    split at h
    · rename_i p hinit
      split at h
      · rename_i tree p' hexp
        split at h
        · cases h
          exact (((parseFns_good _ p (hfuel p)).2.2.2.2).2 t p' hexp).1
        · cases h
      · cases h
    · cases h
  · intro e h
    unfold parse at h
    split at h
    · rename_i p hinit
      split at h
      · split at h
        · cases h
        · cases h
          exact Or.inr rfl
      · rename_i e' hexp
        cases h
        exact Or.inl (((parseFns_good _ p (hfuel p)).2.2.2.2).1 e hexp)
    · rename_i e' hinit
      cases h
      refine Or.inl ?_
      unfold parserInit at hinit
      split at hinit
      · cases hinit
      · rename_i e'' hg
        cases hinit
        rcases get_next_token_err hg with h1 | h1
        · exact Or.inl h1
        · exact Or.inr (Or.inr (Or.inr h1))

/-- On a well-formed tree, `visit` either returns a value or runs into
one of the two undefined-behaviour outcomes of the evaluator (division
by zero, signed overflow); in particular neither of the two defensive
`throw` sites of the interpreter can fire. -/
theorem visit_wf {a : AST} (h : WFAst a) :
    (∃ v, visit a = .ok v) ∨ visit a = .error .divisionByZeroUB ∨
      visit a = .error .signedOverflowUB := by
  induction h with
  | num t ht =>
    exact Or.inl ⟨t.value, by simp [visit, ht]⟩
  | binOp t l r hop hl hr ihl ihr =>
    have happ : ∀ (τ : TokenType),
        (τ = .plusToken ∨ τ = .minusToken ∨ τ = .multiplyToken ∨ τ = .divideToken) →
        ∀ v1 v2 : Int, (∃ v, binOpApply τ v1 v2 = .ok v) ∨
          binOpApply τ v1 v2 = .error .divisionByZeroUB ∨
          binOpApply τ v1 v2 = .error .signedOverflowUB := by
      intro τ hτ v1 v2
      rcases hτ with h | h | h | h <;> subst h <;> simp only [binOpApply]
      · split
        · exact Or.inl ⟨_, rfl⟩
        · exact Or.inr (Or.inr rfl)
      · split
        · exact Or.inl ⟨_, rfl⟩
        · exact Or.inr (Or.inr rfl)
      · split
        · exact Or.inl ⟨_, rfl⟩
        · exact Or.inr (Or.inr rfl)
      · split
        · exact Or.inr (Or.inl rfl)
        · split
          · exact Or.inl ⟨_, rfl⟩
          · exact Or.inr (Or.inr rfl)
    have hvisit : visit (AST.binOp t l r) =
        match visit l with
        | .ok v1 =>
          match visit r with
          | .ok v2 => binOpApply t.type v1 v2
          | .error e => .error e
        | .error e => .error e := by
      rcases hop with h | h | h | h <;> simp [visit, h]
    rw [hvisit]
    rcases ihl with ⟨v1, hv1⟩ | hv1 | hv1
    · rw [hv1]
      rcases ihr with ⟨v2, hv2⟩ | hv2 | hv2
      · rw [hv2]
        exact happ t.type hop v1 v2
      · rw [hv2]
        exact Or.inr (Or.inl rfl)
      · rw [hv2]
        exact Or.inr (Or.inr rfl)
    · rw [hv1]
      exact Or.inr (Or.inl rfl)
    · rw [hv1]
      exact Or.inr (Or.inr rfl)

/-- Every run of `evaluate_expression` either produces a value or fails
with one of the failures actually present in the code: the lexer's
`"Unknown token"`, one of the parser's three `"Syntax error"`-family
messages, `std::out_of_range` from `std::stoi`, or one of the two
undefined-behaviour outcomes of the evaluator. -/
theorem evaluate_expression_cases (s : String) :
    (∃ v : Int, evaluate_expression s = .ok v) ∨
    (∃ e, evaluate_expression s = .error e ∧
      (GoodErr e ∨ e = .runtimeError "Unexpected characters at end" ∨
        e = .divisionByZeroUB ∨ e = .signedOverflowUB)) := by
  rcases hp : parse (lexerInit s.data) with e | tree
  case error =>
    have hev : evaluate_expression s = .error e := by
      unfold evaluate_expression
      rw [hp]
    rcases (parse_cases _).2 e hp with h | h
    · exact Or.inr ⟨e, hev, Or.inl h⟩
    · exact Or.inr ⟨e, hev, Or.inr (Or.inl h)⟩
  case ok =>
    have hwf := (parse_cases _).1 tree hp
    have hev : evaluate_expression s = visit tree := by
      unfold evaluate_expression
      rw [hp]
      rfl
    rcases visit_wf hwf with ⟨v, hv⟩ | hv | hv
    · exact Or.inl ⟨v, hev.trans hv⟩
    · exact Or.inr ⟨_, hev.trans hv, Or.inr (Or.inr (Or.inl rfl))⟩
    · exact Or.inr ⟨_, hev.trans hv, Or.inr (Or.inr (Or.inr rfl))⟩

/-! ## Reachable lexer states -/

/-- The states of one `Lexer` object reachable from a fresh
`Lexer(text)` by repeated successful `get_next_token` calls. -/
inductive Reachable (t : List Char) : LexerState → Prop where
  | init : Reachable t (lexerInit t)
  | step {s s' : LexerState} {tok : Token} :
      Reachable t s → get_next_token s = .ok (tok, s') → Reachable t s'

/-! ## Whitespace-only and digit-only inputs -/

/-- On text that is whitespace from the offset to the end, the
whitespace loop consumes everything. -/
theorem skipWsAux_all_space : ∀ (n : Nat) (s : LexerState),
    (∀ c ∈ s.text, isSpaceChar c = true) → s.position ≤ s.text.length →
    s.text.length - s.position ≤ n →
    skipWsAux n s = ⟨s.text, s.text.length⟩ := by
  intro n
  induction n with
  | zero =>
    intro s hall hle hn
    have heq : s.position = s.text.length := by omega
    rw [skipWsAux, ← heq]
  | succ n ih =>
    intro s hall hle hn
    rcases Nat.eq_or_lt_of_le hle with heq | hlt
    · rw [skipWsAux_id (n + 1) s (Or.inl (List.getD_eq_default _ _ (by omega))), ← heq]
    · have hc : currentChar s ∈ s.text := by
        unfold currentChar
        rw [List.getD_eq_getElem _ _ hlt]
        exact List.getElem_mem _
      have hsp := hall _ hc
      have h0 : currentChar s ≠ '\x00' := by
        intro h
        rw [h] at hsp
        exact absurd hsp (by decide)
      unfold skipWsAux
      rw [if_pos ⟨h0, hsp⟩]
      have hres := ih (advance s) (by simpa [advance] using hall)
        (by simp [advance]; omega) (by simp [advance]; omega)
      simpa [advance] using hres

/-- A fresh lexer on whitespace-only text immediately reports
EndOfInput, with the offset parked at the end of the text. -/
theorem get_next_token_all_space (t : List Char)
    (hall : ∀ c ∈ t, isSpaceChar c = true) :
    get_next_token (lexerInit t) = .ok (⟨.eofToken, 0⟩, ⟨t, t.length⟩) := by
  have hsw : skip_whitespace (lexerInit t) = ⟨t, t.length⟩ := by
    unfold skip_whitespace lexerInit
    exact skipWsAux_all_space _ _ hall (Nat.zero_le _) (Nat.le_refl _)
  have hcc : currentChar (⟨t, t.length⟩ : LexerState) = '\x00' :=
    List.getD_eq_default _ _ (Nat.le_refl _)
  simp [get_next_token, hsw, hcc]

/-- A decimal digit is not the `'\0'` sentinel. -/
theorem digit_ne_zero {c : Char} (h : isDigitChar c = true) : c ≠ '\x00' := by
  intro hc
  rw [hc] at h
  exact absurd h (by decide)

/-- A decimal digit is not whitespace. -/
theorem digit_not_space {c : Char} (h : isDigitChar c = true) :
    isSpaceChar c = false := by
  have h1 : c ≠ ' ' := by intro hc; subst hc; exact absurd h (by decide)
  have h2 : c ≠ '\t' := by intro hc; subst hc; exact absurd h (by decide)
  have h3 : c ≠ '\n' := by intro hc; subst hc; exact absurd h (by decide)
  have h4 : c ≠ '\x0b' := by intro hc; subst hc; exact absurd h (by decide)
  have h5 : c ≠ '\x0c' := by intro hc; subst hc; exact absurd h (by decide)
  have h6 : c ≠ '\r' := by intro hc; subst hc; exact absurd h (by decide)
  simp [isSpaceChar, h1, h2, h3, h4, h5, h6]

/-- Indexing just past a prefix reads the next character. -/
theorem getD_append_at (pre : List Char) (c : Char) (rest : List Char) (d : Char) :
    (pre ++ c :: rest).getD pre.length d = c := by
  induction pre with
  | nil => rfl
  | cons x xs ih => simpa using ih

/-- The digit loop, run over an all-digit suffix, consumes exactly that
suffix. -/
theorem integerLoopAux_all_digits : ∀ (cs pre : List Char),
    (∀ c ∈ cs, isDigitChar c = true) →
    integerLoopAux cs.length ⟨pre ++ cs, pre.length⟩ =
      (cs, ⟨pre ++ cs, (pre ++ cs).length⟩) := by
  intro cs
  induction cs with
  | nil =>
    intro pre hall
    simp [integerLoopAux]
  | cons c rest ih =>
    intro pre hall
    have hc : currentChar ⟨pre ++ c :: rest, pre.length⟩ = c := getD_append_at pre c rest _
    have hdig : isDigitChar c = true := hall c (by simp)
    show integerLoopAux (rest.length + 1) _ = _
    unfold integerLoopAux
    rw [if_pos ⟨by rw [hc]; exact digit_ne_zero hdig, by rw [hc]; exact hdig⟩]
    have hadv : advance ⟨pre ++ c :: rest, pre.length⟩ =
        ⟨(pre ++ [c]) ++ rest, (pre ++ [c]).length⟩ := by
      simp [advance]
    rw [hadv, ih (pre ++ [c]) (fun x hx => hall x (by simp [hx]))]
    simp [hc]

/-- At a parser state whose current token is EndOfInput, `expr` fails at
once inside `factor`: EndOfInput is neither Integer nor LParen. -/
theorem expr_at_eof (n : Nat) (lex : LexerState) (v : Int) :
    (parseFns (n + 1)).expr ⟨lex, ⟨.eofToken, v⟩⟩ =
      .error (.runtimeError "Expected integer or left parenthesis, got neither") := by
  have hfe : (parseFns (n + 1)).expr = exprStep (parseFns n) := rfl
  rw [hfe]
  simp [exprStep, termStep, factorStep]

/-- At a parser state holding an Integer token whose lexer is parked at
end of input, `expr` returns the single `Num` leaf and leaves the
EndOfInput token current. -/
theorem expr_at_single_integer (n : Nat) (lex : LexerState) (v : Int)
    (hend : get_next_token lex = .ok (⟨.eofToken, 0⟩, lex)) :
    (parseFns (n + 1)).expr ⟨lex, ⟨.integerToken, v⟩⟩ =
      .ok (AST.num ⟨.integerToken, v⟩, ⟨lex, ⟨.eofToken, 0⟩⟩) := by
  have heat : eat .integerToken (⟨lex, ⟨.integerToken, v⟩⟩ : ParserState) =
      .ok ⟨lex, ⟨.eofToken, 0⟩⟩ := by
    unfold eat
    rw [if_pos rfl, hend]
  have hfe : (parseFns (n + 1)).expr = exprStep (parseFns n) := rfl
  rw [hfe]
  simp [exprStep, termStep, factorStep, heat, termLoopStep, exprLoopStep]

/-- `parse` on a lexer whose whole token stream is one Integer token:
the result is the single `Num` leaf. -/
theorem parse_single_integer (lex0 lexEnd : LexerState) (v : Int)
    (hg : get_next_token lex0 = .ok (⟨.integerToken, v⟩, lexEnd))
    (hend : get_next_token lexEnd = .ok (⟨.eofToken, 0⟩, lexEnd)) :
    parse lex0 = .ok (AST.num ⟨.integerToken, v⟩) := by
  have hfe : parseFns (parseFuel ⟨lexEnd, ⟨.integerToken, v⟩⟩) =
      parseFns (lexEnd.text.length + 1 + 1) := rfl
  simp [parse, parserInit, hg, hfe,
    expr_at_single_integer (lexEnd.text.length + 1) lexEnd v hend]

/-- `parse` on a lexer whose first token is already EndOfInput fails
with the `factor` rejection. -/
theorem parse_at_eof (lex0 lexEnd : LexerState)
    (hg : get_next_token lex0 = .ok (⟨.eofToken, 0⟩, lexEnd)) :
    parse lex0 = .error (.runtimeError "Expected integer or left parenthesis, got neither") := by
  have hfe : parseFns (parseFuel ⟨lexEnd, ⟨.eofToken, 0⟩⟩) =
      parseFns (lexEnd.text.length + 1 + 1) := rfl
  simp [parse, parserInit, hg, hfe, expr_at_eof (lexEnd.text.length + 1) lexEnd 0]

/-! ## The spec's error taxonomy, mapped onto the code's failures -/

/-- The spec's `LexicalError`: the failure thrown at the lexer's
unrecognized-character `throw` site. -/
def isLexicalError (e : Err) : Prop :=
  e = .runtimeError "Unknown token"

/-- The spec's `SyntaxError`: the failures thrown at the parser's three
`throw` sites (`eat` mismatch, `factor` rejection, trailing input). -/
def isSyntaxError (e : Err) : Prop :=
  e = .runtimeError "Syntax error" ∨
    e = .runtimeError "Expected integer or left parenthesis, got neither" ∨
    e = .runtimeError "Unexpected characters at end"

/-! ## The claims -/

/-- C1.  The claim says evaluating a division whose right operand is 0
(`"10/0"`) fails with `DivisionByZeroError`.  The code has no such
check: `visit_BinaryOp` executes `first_value / second_value` unguarded,
which for a zero divisor is undefined behaviour in C++ (typically a
crash), not a reported error.  This theorem evaluates the embedding at
the failing input and shows the run ends in the undefined-behaviour
marker rather than in any thrown error. -/
theorem spec_c1_division_by_zero_is_ub :
    evaluate_expression "10/0" = .error .divisionByZeroUB := rfl

/-- C2 (counterexample).  The claim says the lexical failure names the
offending character.  It does not: the message is the fixed string
`"Unknown token"` (for `"2#3"` it does not contain `'#'`).  Moreover a
NUL character is not a digit and not one of the six operators, yet a
text starting with NUL produces an EndOfInput token, not a failure,
because the scanner uses `'\0'` as its end sentinel. -/
theorem spec_c2_cex :
    evaluate_expression "2#3" = .error (.runtimeError "Unknown token") ∧
    ('#' ∈ "Unknown token".data → False) ∧
    get_next_token (lexerInit ['\x00']) = .ok (⟨.eofToken, 0⟩, lexerInit ['\x00']) :=
  ⟨rfl, by decide, rfl⟩

/-- C2 (amended).  For every lexer state, if the first character at or
after the scan point once whitespace is skipped is not the NUL sentinel,
not a decimal digit, and not one of the six operator characters, then
`get_next_token` fails with the lexical error — whose message is the
fixed string `"Unknown token"`; it does not name the offending
character. -/
theorem spec_c2_lexical_error (s : LexerState)
    (h0 : currentChar (skip_whitespace s) ≠ '\x00')
    (hd : isDigitChar (currentChar (skip_whitespace s)) = false)
    (hop : currentChar (skip_whitespace s) ∉ (['+', '-', '*', '/', '(', ')'] : List Char)) :
    get_next_token s = .error (.runtimeError "Unknown token") := by
  simp only [List.mem_cons, List.not_mem_nil, or_false, not_or] at hop
  obtain ⟨h1, h2, h3, h4, h5, h6⟩ := hop
  simp only [get_next_token]
  rw [if_neg h0, if_neg (by simp [hd]), if_neg h1, if_neg h2, if_neg h3, if_neg h4,
    if_neg h5, if_neg h6]

/-- Witness for C2 (amended), at the lexer state freshly built on `"#"`. -/
theorem spec_c2_witness :
    currentChar (skip_whitespace (lexerInit ['#'])) ≠ '\x00' ∧
    isDigitChar (currentChar (skip_whitespace (lexerInit ['#']))) = false ∧
    currentChar (skip_whitespace (lexerInit ['#'])) ∉ (['+', '-', '*', '/', '(', ')'] : List Char) ∧
    get_next_token (lexerInit ['#']) = .error (.runtimeError "Unknown token") :=
  ⟨by decide, by decide, by decide,
    spec_c2_lexical_error (lexerInit ['#']) (by decide) (by decide) (by decide)⟩

/-- C3 (counterexample).  The claim says every failure of
`evaluate_expression` is one of exactly `LexicalError`, `SyntaxError`,
`DivisionByZeroError`.  Three runs escape that set: `"10/0"` is
undefined behaviour (no `DivisionByZeroError` exists anywhere in the
code), `"9999999999"` lets `std::out_of_range` escape from `std::stoi`,
and `"2000000000+2000000000"` is undefined behaviour by signed-integer
overflow. -/
theorem spec_c3_cex :
    (evaluate_expression "10/0" = .error .divisionByZeroUB ∧
      ¬ isLexicalError .divisionByZeroUB ∧ ¬ isSyntaxError .divisionByZeroUB) ∧
    (evaluate_expression "9999999999" = .error .outOfRange ∧
      ¬ isLexicalError .outOfRange ∧ ¬ isSyntaxError .outOfRange) ∧
    (evaluate_expression "2000000000+2000000000" = .error .signedOverflowUB ∧
      ¬ isLexicalError .signedOverflowUB ∧ ¬ isSyntaxError .signedOverflowUB) := by
  refine ⟨⟨rfl, ?_, ?_⟩, ⟨rfl, ?_, ?_⟩, ⟨rfl, ?_, ?_⟩⟩ <;>
    simp [isLexicalError, isSyntaxError]

/-- C3 (amended).  For every input string, `evaluate_expression` either
returns an integer or fails with: a `LexicalError`, a `SyntaxError`,
`std::out_of_range` escaping from integer-literal conversion, or
undefined behaviour (division by zero, or signed-integer overflow).  In
particular no `invalid_argument`, no defensive interpreter failure and
no fuel exhaustion of the model ever escapes. -/
theorem spec_c3_failure_kinds (s : String) :
    (∃ v : Int, evaluate_expression s = .ok v) ∨
    (∃ e, evaluate_expression s = .error e ∧
      (isLexicalError e ∨ isSyntaxError e ∨ e = .outOfRange ∨
        e = .divisionByZeroUB ∨ e = .signedOverflowUB)) := by
  rcases evaluate_expression_cases s with h | ⟨e, he, hcase⟩
  · exact Or.inl h
  · refine Or.inr ⟨e, he, ?_⟩
    unfold GoodErr at hcase
    rcases hcase with (h | h | h | h) | h | h | h
    · exact Or.inl h
    · exact Or.inr (Or.inl (Or.inl h))
    · exact Or.inr (Or.inl (Or.inr (Or.inl h)))
    · exact Or.inr (Or.inr (Or.inl h))
    · exact Or.inr (Or.inl (Or.inr (Or.inr h)))
    · exact Or.inr (Or.inr (Or.inr (Or.inl h)))
    · exact Or.inr (Or.inr (Or.inr (Or.inr h)))

/-- C4.  The four arithmetic examples: addition, precedence of `*` over
`+`, parenthesized grouping, and left-associativity of `-`. -/
theorem spec_c4_examples :
    evaluate_expression "2+3" = .ok 5 ∧
    evaluate_expression "2+3*4" = .ok 14 ∧
    evaluate_expression "(2+3)*4" = .ok 20 ∧
    evaluate_expression "7-2-3" = .ok 2 :=
  ⟨rfl, rfl, rfl, rfl⟩

/-- C5 (counterexample).  The claim quantifies over every non-empty
digit string; on `"9999999999"` (whose value 9999999999 exceeds
`INT_MAX` = 2147483647) the program does not return the value — the
`std::out_of_range` of `std::stoi` escapes. -/
theorem spec_c5_cex :
    evaluate_expression "9999999999" = .error .outOfRange ∧
    digitsVal "9999999999".data = 9999999999 ∧
    (Except.error Err.outOfRange ≠
      (Except.ok (9999999999 : Int) : Except Err Int)) :=
  ⟨rfl, by decide, fun h => by cases h⟩

/-- C5 (amended).  For every non-empty string of decimal digits whose
base-10 value is at most `INT_MAX`, `evaluate_expression` returns that
value: the tokenizer consumes the whole run as one Integer token (and
leading zeros contribute nothing, as the value is the numeric value of
the digit string). -/
theorem spec_c5_digits (ds : List Char) (hne : ds ≠ [])
    (hall : ∀ c ∈ ds, isDigitChar c = true)
    (hbound : digitsVal ds ≤ intMax) :
    evaluate_expression (String.mk ds) = .ok (digitsVal ds : Int) := by
  obtain ⟨c, rest, rfl⟩ := List.exists_cons_of_ne_nil hne
  have hc0 : currentChar (lexerInit (c :: rest)) = c := rfl
  have hdigc : isDigitChar c = true := hall c (by simp)
  have hsw : skip_whitespace (lexerInit (c :: rest)) = lexerInit (c :: rest) :=
    skip_whitespace_id _ (Or.inr (by rw [hc0]; exact digit_not_space hdigc))
  have hloop : integerLoop (lexerInit (c :: rest)) =
      (c :: rest, ⟨c :: rest, (c :: rest).length⟩) := by
    unfold integerLoop lexerInit
    simpa using integerLoopAux_all_digits (c :: rest) [] hall
  have hstoi : stoi (c :: rest) = .ok (digitsVal (c :: rest) : Int) := by
    unfold stoi
    rw [if_neg (by simp), if_neg (by omega)]
  have hint : integer (lexerInit (c :: rest)) =
      .ok ((digitsVal (c :: rest) : Int), ⟨c :: rest, (c :: rest).length⟩) := by
    simp only [integer, hloop, hstoi]
  have hg : get_next_token (lexerInit (c :: rest)) =
      .ok (⟨.integerToken, (digitsVal (c :: rest) : Int)⟩,
        ⟨c :: rest, (c :: rest).length⟩) := by
    simp only [get_next_token, hsw]
    rw [if_neg (by rw [hc0]; exact digit_ne_zero hdigc),
      if_pos (by rw [hc0]; exact hdigc), hint]
  have hend : get_next_token (⟨c :: rest, (c :: rest).length⟩ : LexerState) =
      .ok (⟨.eofToken, 0⟩, ⟨c :: rest, (c :: rest).length⟩) :=
    get_next_token_at_end (List.getD_eq_default _ _ (Nat.le_refl _))
  have hparse := parse_single_integer (lexerInit (c :: rest))
    ⟨c :: rest, (c :: rest).length⟩ (digitsVal (c :: rest) : Int) hg hend
  have hdata : (String.mk (c :: rest)).data = c :: rest := rfl
  simp [evaluate_expression, hdata, hparse, interpret, visit]

/-- Witness for C5 (amended), at the digit string `"007"` (also
exercising the leading-zeros clause). -/
theorem spec_c5_witness :
    (['0', '0', '7'] : List Char) ≠ [] ∧
    (∀ c ∈ (['0', '0', '7'] : List Char), isDigitChar c = true) ∧
    digitsVal ['0', '0', '7'] ≤ intMax ∧
    evaluate_expression (String.mk ['0', '0', '7']) =
      .ok (digitsVal ['0', '0', '7'] : Int) :=
  ⟨by decide, by decide, by decide,
    spec_c5_digits ['0', '0', '7'] (by decide) (by decide) (by decide)⟩

/-- C6.  The parser's `SyntaxError`s: `factor` rejects any current token
that is neither Integer nor LParen (in particular the EndOfInput of
`"2+"`); `eat` rejects a current token that does not match the expected
kind (in particular the missing RParen of `"(2+3"`); and after a
complete `expr` a non-EndOfInput token is rejected as trailing garbage
(`"2 3"`).  All three failures are `SyntaxError`s in the spec's
taxonomy. -/
theorem spec_c6_syntax_errors :
    (∀ (prev : ParseFns) (p : ParserState),
      p.currentToken.type ≠ .integerToken → p.currentToken.type ≠ .lParenToken →
      factorStep prev p =
        .error (.runtimeError "Expected integer or left parenthesis, got neither")) ∧
    (∀ (τ : TokenType) (p : ParserState), p.currentToken.type ≠ τ →
      eat τ p = .error (.runtimeError "Syntax error")) ∧
    (evaluate_expression "2+" =
      .error (.runtimeError "Expected integer or left parenthesis, got neither") ∧
      isSyntaxError (.runtimeError "Expected integer or left parenthesis, got neither")) ∧
    (evaluate_expression "(2+3" = .error (.runtimeError "Syntax error") ∧
      isSyntaxError (.runtimeError "Syntax error")) ∧
    (evaluate_expression "2 3" = .error (.runtimeError "Unexpected characters at end") ∧
      isSyntaxError (.runtimeError "Unexpected characters at end")) := by
  refine ⟨?_, ?_, ⟨rfl, ?_⟩, ⟨rfl, ?_⟩, ⟨rfl, ?_⟩⟩
  · intro prev p h1 h2
    unfold factorStep
    split
    · rename_i heq
      exact absurd heq h1
    · rename_i heq
      exact absurd heq h2
    · rfl
  · intro τ p h
    unfold eat
    rw [if_neg h]
  · simp [isSyntaxError]
  · simp [isSyntaxError]
  · simp [isSyntaxError]

/-- Witness for C6, at a parser state holding an EndOfInput token (the
`factor` clause) and expecting an RParen (the `eat` clause). -/
theorem spec_c6_witness :
    ((⟨lexerInit [], ⟨.eofToken, 0⟩⟩ : ParserState).currentToken.type ≠ .integerToken) ∧
    ((⟨lexerInit [], ⟨.eofToken, 0⟩⟩ : ParserState).currentToken.type ≠ .lParenToken) ∧
    factorStep (parseFns 0) ⟨lexerInit [], ⟨.eofToken, 0⟩⟩ =
      .error (.runtimeError "Expected integer or left parenthesis, got neither") ∧
    ((⟨lexerInit [], ⟨.eofToken, 0⟩⟩ : ParserState).currentToken.type ≠ .rParenToken) ∧
    eat .rParenToken ⟨lexerInit [], ⟨.eofToken, 0⟩⟩ =
      .error (.runtimeError "Syntax error") :=
  ⟨by decide, by decide,
    spec_c6_syntax_errors.1 (parseFns 0) _ (by decide) (by decide),
    by decide,
    spec_c6_syntax_errors.2.1 .rParenToken _ (by decide)⟩

/-- C7.  In every tokenizer state reachable from a fresh tokenizer by
repeated next-token calls, the scan offset is at most one past the last
character: a valid index or exactly the text length (and, being a
`Nat` — the model of `std::size_t` — it cannot be negative).  This
includes the empty text, where the offset stays 0. -/
theorem spec_c7_offset_in_range {t : List Char} {s : LexerState}
    (h : Reachable t s) : s.position ≤ s.text.length := by
  induction h with
  | init => exact Nat.zero_le _
  | step hs hg ih =>
    obtain ⟨h1, _h2, h3, _h4⟩ := get_next_token_ok hg
    rw [h1]
    exact h3 ih

/-- Witness for C7: the state reached after lexing the Integer token of
`"12"` has offset 2, within bound for a text of length 2. -/
theorem spec_c7_witness :
    (⟨['1', '2'], 2⟩ : LexerState).position ≤ (⟨['1', '2'], 2⟩ : LexerState).text.length :=
  spec_c7_offset_in_range
    (Reachable.step Reachable.init
      (show get_next_token (lexerInit ['1', '2']) =
        .ok (⟨.integerToken, 12⟩, ⟨['1', '2'], 2⟩) from rfl))

/-- C8.  Once `get_next_token` has returned an EndOfInput token, every
further call returns EndOfInput again and leaves the state untouched,
so all subsequent observable output is the same. -/
theorem spec_c8_eof_idempotent {s : LexerState} {t : Token} {s' : LexerState}
    (h : get_next_token s = .ok (t, s')) (ht : t.type = .eofToken) :
    get_next_token s' = .ok (⟨.eofToken, 0⟩, s') :=
  get_next_token_at_end (get_next_token_eof h ht)

/-- Witness for C8: on `" "` the first call returns EndOfInput, and the
next call returns EndOfInput from the unchanged state. -/
theorem spec_c8_witness :
    get_next_token (lexerInit [' ']) = .ok (⟨.eofToken, 0⟩, ⟨[' '], 1⟩) ∧
    ((⟨.eofToken, 0⟩ : Token).type = .eofToken) ∧
    get_next_token (⟨[' '], 1⟩ : LexerState) = .ok (⟨.eofToken, 0⟩, ⟨[' '], 1⟩) :=
  ⟨rfl, rfl, @spec_c8_eof_idempotent (lexerInit [' ']) ⟨.eofToken, 0⟩ ⟨[' '], 1⟩ rfl rfl⟩

/-- C9.  The pipeline terminates on every finite input: all loops and
recursions of the embedding are fuelled, and the fuel bounds chosen from
the input length are never exhausted — `evaluate_expression` never
returns the fuel-exhaustion marker, for any input string. -/
theorem spec_c9_terminates (s : String) :
    evaluate_expression s ≠ .error .fuelExhausted := by
  intro h
  rcases evaluate_expression_cases s with ⟨v, hv⟩ | ⟨e, he, hcase⟩
  · rw [hv] at h
    cases h
  · rw [he] at h
    injection h with h'
    subst h'
    unfold GoodErr at hcase
    rcases hcase with (h1 | h1 | h1 | h1) | h1 | h1 | h1 <;> cases h1

/-- C10.  On the empty input, and more generally on any input that is
whitespace only, the tokenizer immediately yields EndOfInput and
`factor` rejects it, so `evaluate_expression` fails with the `factor`
`SyntaxError`. -/
theorem spec_c10_blank_input (s : String)
    (hall : ∀ c ∈ s.data, isSpaceChar c = true) :
    evaluate_expression s =
      .error (.runtimeError "Expected integer or left parenthesis, got neither") := by
  have hg := get_next_token_all_space s.data hall
  have hp := parse_at_eof (lexerInit s.data) ⟨s.data, s.data.length⟩ hg
  simp [evaluate_expression, hp]

/-- Witness for C10, at the empty string and at `" \t"`. -/
theorem spec_c10_witness :
    (∀ c ∈ "".data, isSpaceChar c = true) ∧
    evaluate_expression "" =
      .error (.runtimeError "Expected integer or left parenthesis, got neither") ∧
    (∀ c ∈ " \t".data, isSpaceChar c = true) ∧
    evaluate_expression " \t" =
      .error (.runtimeError "Expected integer or left parenthesis, got neither") :=
  ⟨by decide, spec_c10_blank_input "" (by decide), by decide,
    spec_c10_blank_input " \t" (by decide)⟩
